import Mathlib

/-!
Verification of the guitar triad-voicing engine (main.py).

This file gives a shallow embedding of the data model and algorithms of
`main.py` — the fretboard model, pitch utilities, the XYZ pattern table,
the single-note position finder, the triad-voicing enumerator and the
two-tier voicing selector — and proves the specification claims about them.

Conventions used throughout the embedding:

* Pitch classes, string indices, frets and MIDI numbers are `Nat`.
* The Python code stores `avg_fret = (f1+f2+f3)/3.0` (an IEEE double) in
  each voicing and sorts/compares by it.  We store `fret_sum = f1+f2+f3`
  (= 3 × avg_fret) instead.  For the integer fret sums that occur here
  (0..60 per voicing, 0..240 summed over a chain) the map `s ↦ s/3.0` is
  strictly monotone on doubles, so every comparison and stable sort by
  `avg_fret` coincides with the same operation on `fret_sum`; the only
  caveat is that two *exactly equal* rational values can compare unequal
  after rounding, and the span-threshold test `span < 3` at an exactly-3
  span can in principle be perturbed by the two roundings — measure-zero
  coincidences that we resolve exactly, as the spec does.
* The Python `list.sort` is a stable sort; we model it with a stable
  insertion sort (`insertionSort` below) — any two stable sorts agree.
* Python dict-of-dict fretboards are modelled as functions
  `Nat → Nat → Nat`; the code only ever reads keys in `0..5` × `0..20`.
* Fallible operations (`.index` on a missing name, an empty candidate
  list) are modelled with `Option`.
-/

namespace Guitar

/-- The 12 canonical sharp note names, `NOTE_NAMES_SHARP` in main.py
(split in two halves purely for layout). -/
def NOTE_NAMES_SHARP : List String :=
  ["C", "C#", "D", "D#", "E", "F"] ++ ["F#", "G", "G#", "A", "A#", "B"]

/-- The seven mode names, `MODES` in main.py. -/
def MODES : List String :=
  ["Ionian", "Dorian", "Phrygian", "Lydian", "Mixolydian", "Aeolian", "Locrian"]

/-- The circular base pattern `XYZ_BASE = ["X","X","X","Y","Y","Z","Z"]`. -/
def XYZ_BASE : List String := ["X", "X", "X", "Y", "Y", "Z", "Z"]

/-- The `MODE_TO_START` dictionary: start index of each mode in the circular
base pattern.  The Python dict raises `KeyError` on other keys; the claims
only evaluate it at the seven mode names, so the default branch is inert. -/
def MODE_TO_START (mode : String) : Nat :=
  if mode = "Ionian" then 1
  else if mode = "Dorian" then 6
  else if mode = "Phrygian" then 4
  else if mode = "Lydian" then 2
  else if mode = "Mixolydian" then 0
  else if mode = "Aeolian" then 5
  else if mode = "Locrian" then 3
  else 0

/-- `WINDOW_LEN = 6`. -/
def WINDOW_LEN : Nat := 6

/-- Open-string MIDI numbers `STRING_TUNING_MIDI = [40, 45, 50, 55, 59, 64]`. -/
def STRING_TUNING_MIDI : List Nat := [40, 45, 50, 55, 59, 64]

/-- Open-string names `STRING_NAMES = ["E","A","D","G","B","E"]`. -/
def STRING_NAMES : List String := ["E", "A", "D", "G", "B", "E"]

/-- `name_to_pc`: index of a note name in `NOTE_NAMES_SHARP`.  Python's
`.index` raises on a missing name; `List.indexOf` returns the length (12)
there, a pitch class that never occurs on a fretboard (all values are
`% 12`), so downstream behaviour matches the error case. -/
def name_to_pc (name : String) : Nat :=
  NOTE_NAMES_SHARP.indexOf name

/-- `pc_to_sharp_name`: sharp name of a pitch class (total, via `% 12`). -/
def pc_to_sharp_name (pc : Nat) : String :=
  NOTE_NAMES_SHARP.getD (pc % 12) ""

/-- `midi_to_pc`: MIDI note number to pitch class. -/
def midi_to_pc (midi_note : Nat) : Nat := midi_note % 12

/-- `build_fretboard`: (string index, fret) ↦ pitch class,
`(STRING_TUNING_MIDI[s] + fret) % 12`, for strings 0..5 and frets 0..20. -/
def build_fretboard : Nat → Nat → Nat :=
  fun string_idx fret => midi_to_pc (STRING_TUNING_MIDI.getD string_idx 0 + fret)

/-- `xyz_window_for_mode`: the 6-symbol window
`[XYZ_BASE[(start + i) % 7] for i in range(WINDOW_LEN)]`. -/
def xyz_window_for_mode (mode : String) : List String :=
  (List.range WINDOW_LEN).map (fun i => XYZ_BASE.getD ((MODE_TO_START mode + i) % 7) "")

/-- `get_xyz_display_string`: the window joined into one string. -/
def get_xyz_display_string (mode : String) : String :=
  String.join (xyz_window_for_mode mode)

/-! ### Stable sorting

Python's `list.sort(key=k)` is a stable sort by the key.  Insertion sort
with the non-strict comparison `k a ≤ k b` produces exactly the stable
sort (an element is inserted before the equal-key elements that follow it
in the original list order — which are exactly those it precedes). -/

/-- Insert `a` into `l` before the first element `b` with `le a b`. -/
def orderedInsert (le : α → α → Bool) (a : α) : List α → List α
  | [] => [a]
  | b :: l => if le a b then a :: b :: l else b :: orderedInsert le a l

/-- Stable insertion sort by the comparison `le`. -/
def insertionSort (le : α → α → Bool) : List α → List α
  | [] => []
  | a :: l => orderedInsert le a (insertionSort le l)

theorem mem_orderedInsert (le : α → α → Bool) (a b : α) (l : List α) :
    b ∈ orderedInsert le a l ↔ b = a ∨ b ∈ l := by
  induction l with
  | nil => simp [orderedInsert]
  | cons c l ih =>
      simp only [orderedInsert]
      split
      · simp
      · simp [ih]
        tauto

theorem mem_insertionSort (le : α → α → Bool) (b : α) (l : List α) :
    b ∈ insertionSort le l ↔ b ∈ l := by
  induction l with
  | nil => simp [insertionSort]
  | cons a l ih => simp [insertionSort, mem_orderedInsert, ih]

theorem length_orderedInsert (le : α → α → Bool) (a : α) (l : List α) :
    (orderedInsert le a l).length = l.length + 1 := by
  induction l with
  | nil => rfl
  | cons c l ih =>
      simp only [orderedInsert]
      split
      · rfl
      · simp [ih]

theorem length_insertionSort (le : α → α → Bool) (l : List α) :
    (insertionSort le l).length = l.length := by
  induction l with
  | nil => rfl
  | cons a l ih => simp [insertionSort, length_orderedInsert, ih]

theorem pairwise_orderedInsert (le : α → α → Bool)
    (htot : ∀ a b, le a b = true ∨ le b a = true)
    (htrans : ∀ a b c, le a b = true → le b c = true → le a c = true)
    (a : α) (l : List α) (hl : l.Pairwise (fun x y => le x y = true)) :
    (orderedInsert le a l).Pairwise (fun x y => le x y = true) := by
  induction l with
  | nil => simp [orderedInsert]
  | cons c l ih =>
      rcases List.pairwise_cons.mp hl with ⟨hc, hl0⟩
      simp only [orderedInsert]
      split
      · rename_i hac
        refine List.pairwise_cons.mpr ⟨?_, hl⟩
        intro x hx
        rcases List.mem_cons.mp hx with rfl | hx
        · exact hac
        · exact htrans a c x hac (hc x hx)
      · rename_i hac
        have hca : le c a = true := by
          rcases htot a c with h | h
          · exact absurd h hac
          · exact h
        refine List.pairwise_cons.mpr ⟨?_, ih hl0⟩
        intro x hx
        rcases (mem_orderedInsert le a x l).mp hx with rfl | hx
        · exact hca
        · exact hc x hx

theorem pairwise_insertionSort (le : α → α → Bool)
    (htot : ∀ a b, le a b = true ∨ le b a = true)
    (htrans : ∀ a b c, le a b = true → le b c = true → le a c = true)
    (l : List α) :
    (insertionSort le l).Pairwise (fun x y => le x y = true) := by
  induction l with
  | nil => simp [insertionSort]
  | cons a l ih => exact pairwise_orderedInsert le htot htrans a _ ih

/-- In a pairwise-`le` list, the head is `le` every member of the tail list. -/
theorem pairwise_head_le {le : α → α → Bool} {l : List α} {a : α}
    (h : (a :: l).Pairwise (fun x y => le x y = true)) :
    ∀ b ∈ l, le a b = true :=
  (List.pairwise_cons.mp h).1

/-- In a pairwise-`le` list, every member is `le` the last element. -/
theorem pairwise_le_getLast {le : α → α → Bool} {l : List α} {m : α}
    (h : l.Pairwise (fun x y => le x y = true)) (hm : l.getLast? = some m) :
    ∀ b ∈ l, b = m ∨ le b m = true := by
  induction l with
  | nil => simp at hm
  | cons a l ih =>
      rcases List.pairwise_cons.mp h with ⟨ha, hl⟩
      cases l with
      | nil =>
          intro b hb
          rcases List.mem_cons.mp hb with rfl | hb
          · left
            have hbm : some b = some m := by simpa using hm
            exact Option.some_inj.mp hbm
          · simp at hb
      | cons c l2 =>
          have hm2 : (c :: l2).getLast? = some m := by
            simpa [List.getLast?] using hm
          intro b hb
          rcases List.mem_cons.mp hb with rfl | hb
          · right
            exact ha m (List.mem_of_getLast?_eq_some hm2)
          · exact ih hl hm2 b hb

/-! ### Triad data model -/

/-- Inversion labels.  Python uses the strings `"root"`, `"first"`,
`"second"`, `"unknown"`; an inductive type carries the same four values. -/
inductive Inversion
  | root
  | first
  | second
  | unknown
deriving DecidableEq, Repr

/-- A triad voicing, the dict built by `find_all_triad_voicings`:
`strings`, `frets` and `notes` (pitch classes) are 3-element lists
low → high, `inversion` is the classification, and `fret_sum` stands for
the stored `avg_fret = fret_sum / 3.0` (see the header note on floats).
The display-only `note_names` field of the dict is omitted: no algorithm
or claim reads it. -/
structure Voicing where
  strings : List Nat
  frets : List Nat
  notes : List Nat
  inversion : Inversion
  fret_sum : Nat
deriving DecidableEq, Repr

instance : Inhabited Voicing := ⟨⟨[], [], [], .unknown, 0⟩⟩

/-- `build_major_triad`: `[root, root+4 mod 12, root+7 mod 12]`. -/
def build_major_triad (root_name : String) : List Nat :=
  let root_pc := name_to_pc root_name
  [root_pc, (root_pc + 4) % 12, (root_pc + 7) % 12]

/-- `identify_inversion`: classify by the lowest-string note.  Python
destructures `root_pc, third_pc, fifth_pc = triad_pcs` (a 3-element list)
and reads `notes[0]`; `getD` stands in for those reads. -/
def identify_inversion (notes : List Nat) (triad_pcs : List Nat) : Inversion :=
  let root_pc := triad_pcs.getD 0 0
  let third_pc := triad_pcs.getD 1 0
  let fifth_pc := triad_pcs.getD 2 0
  let lowest_note := notes.getD 0 0
  if lowest_note = root_pc then .root
  else if lowest_note = third_pc then .first
  else if lowest_note = fifth_pc then .second
  else .unknown

/-- Boolean list-as-set inclusion, `set(xs) <= set(ys)`. -/
def subsetB (xs ys : List Nat) : Bool := xs.all (fun a => ys.contains a)

/-- Boolean list-as-set equality, Python `set(xs) == set(ys)`. -/
def sameSetB (xs ys : List Nat) : Bool := subsetB xs ys && subsetB ys xs

/-- `find_all_triad_voicings`: brute-force all fret triples `0..20` on the
3 strings of the group, keeping a triple when each note is a triad member,
the three pitch classes cover the whole triad set, and the fret span is at
most `max_stretch`.  The nested Python `for`/`continue` loops become
nested `flatMap`/`filterMap` over `List.range 21` in the same order. -/
def find_all_triad_voicings (triad_pcs : List Nat) (string_group : List Nat)
    (fretboard : Nat → Nat → Nat) (max_stretch : Nat := 5) : List Voicing :=
  (List.range 21).flatMap (fun fret1 =>
    let note1 := fretboard (string_group.getD 0 0) fret1
    if note1 ∈ triad_pcs then
      (List.range 21).flatMap (fun fret2 =>
        let note2 := fretboard (string_group.getD 1 0) fret2
        if note2 ∈ triad_pcs then
          (List.range 21).filterMap (fun fret3 =>
            let note3 := fretboard (string_group.getD 2 0) fret3
            if note3 ∈ triad_pcs then
              let notes := [note1, note2, note3]
              if sameSetB notes triad_pcs then
                let min_fret := min fret1 (min fret2 fret3)
                let max_fret := max fret1 (max fret2 fret3)
                if max_fret - min_fret ≤ max_stretch then
                  some { strings := string_group
                         frets := [fret1, fret2, fret3]
                         notes := notes
                         inversion := identify_inversion notes triad_pcs
                         fret_sum := fret1 + fret2 + fret3 }
                else none
              else none
            else none)
        else [])
    else [])

/-- `voicings_share_notes`: the earlier voicing's notes and frets at
indices 1..2 coincide with the later voicing's notes and frets at
indices 0..1 (Python slices `[1:3]` and `[0:2]`). -/
def voicings_share_notes (v1 v2 : Voicing) : Bool :=
  ((v1.notes.drop 1).take 2 == v2.notes.take 2) &&
  ((v1.frets.drop 1).take 2 == v2.frets.take 2)

/-- A chain: one voicing from each of the 4 string groups, Python's
4-element list `[v0, v1, v2, v3]`. -/
structure Chain where
  c0 : Voicing
  c1 : Voicing
  c2 : Voicing
  c3 : Voicing
deriving DecidableEq, Repr

instance : Inhabited Chain := ⟨⟨default, default, default, default⟩⟩

/-- Member voicing of a chain for group `g` (Python `chain[g]`, `g < 4`). -/
def Chain.get (c : Chain) : Nat → Voicing
  | 0 => c.c0
  | 1 => c.c1
  | 2 => c.c2
  | _ => c.c3

/-- `find_voicing_chains`: the exhaustive nested join over the 4 groups,
keeping every quadruple whose adjacent members share notes. -/
def find_voicing_chains (all_group_voicings : List (List Voicing)) : List Chain :=
  (all_group_voicings.getD 0 []).flatMap (fun v0 =>
    (all_group_voicings.getD 1 []).flatMap (fun v1 =>
      if voicings_share_notes v0 v1 then
        (all_group_voicings.getD 2 []).flatMap (fun v2 =>
          if voicings_share_notes v1 v2 then
            (all_group_voicings.getD 3 []).filterMap (fun v3 =>
              if voicings_share_notes v2 v3 then
                some ⟨v0, v1, v2, v3⟩
              else none)
          else [])
      else []))

/-! ### Independent selector `select_4_positions` -/

/-- Comparison used by `voicings.sort(key=lambda v: v["avg_fret"])`. -/
def voicingLe (a b : Voicing) : Bool := a.fret_sum ≤ b.fret_sum

/-- Stable sort of voicings by average fret. -/
def sortVoicings (l : List Voicing) : List Voicing := insertionSort voicingLe l

/-- The dict iteration order `inversion_types = ["root","first","second"]`. -/
def inversion_types : List Inversion := [.root, .first, .second]

/-- The `by_inversion` bucket of one inversion: Python appends the sorted
voicings in order to per-inversion lists (dropping `"unknown"`), which is
exactly a filter of the sorted list. -/
def bucket (sorted : List Voicing) (inv : Inversion) : List Voicing :=
  sorted.filter (fun v => v.inversion = inv)

/-- Scaled fret span of a bucket,
`3 * (inv_voicings[-1].avg_fret - inv_voicings[0].avg_fret)`. -/
def span3 (l : List Voicing) : Nat :=
  (l.getLastD default).fret_sum - (l.headD default).fret_sum

/-- One step of the best-paired-inversion loop: with at least 2 voicings
in the bucket, take the bucket's span when it strictly beats the best so
far (`span > best_span`, `best_span` starting at 0). -/
def bpStep (sorted : List Voicing) (acc : Option Inversion × Nat)
    (inv : Inversion) : Option Inversion × Nat :=
  if 2 ≤ (bucket sorted inv).length then
    if acc.2 < span3 (bucket sorted inv) then (some inv, span3 (bucket sorted inv))
    else acc
  else acc

/-- The `best_paired_inversion` / `best_span` pair after the loop over
`inversion_types` ( `(None, 0)` when no inversion improves on span 0). -/
def bestPaired (sorted : List Voicing) : Option Inversion × Nat :=
  inversion_types.foldl (bpStep sorted) (none, 0)

/-- Python `round(m / 4)` for a natural `m`: banker's rounding
(round-half-to-even), which is what `round` does on the exact binary
quarters produced by `(n-1)/4`, `2*(n-1)/4` and `3*(n-1)/4`. -/
def pyRound4 (m : Nat) : Nat :=
  let q := m / 4
  match m % 4 with
  | 0 => q
  | 1 => q
  | 2 => if q % 2 = 0 then q else q + 1
  | _ => q + 1

/-- The quartile fallback of `select_4_positions`: indices
`[0, round((n-1)/4), round(2(n-1)/4), round(3(n-1)/4)]`, tagged 0..3. -/
def quartileSelect (sorted : List Voicing) : List (Nat × Voicing) :=
  let n := sorted.length
  ([0, pyRound4 (n - 1), pyRound4 (2 * (n - 1)), pyRound4 (3 * (n - 1))].enum).map
    (fun p => (p.1, sorted.getD p.2 default))

/-- `select_4_positions`: the independent per-group selector.  Selected
voicings are `(position, voicing)` pairs, standing for the Python copies
with an added `"position"` key. -/
def select_4_positions (voicings : List Voicing) : List (Nat × Voicing) :=
  if voicings.isEmpty then []
  else
    let sorted := sortVoicings voicings
    let n := sorted.length
    if n ≤ 4 then sorted.enum
    else
      let bp := bestPaired sorted
      match bp.1 with
      | none => quartileSelect sorted
      | some best_paired_inversion =>
        if bp.2 < 9 then quartileSelect sorted
        else
          let other_inversions := inversion_types.filter (· ≠ best_paired_inversion)
          let paired_voicings := bucket sorted best_paired_inversion
          let b1 := bucket sorted (other_inversions.getD 0 .root)
          let b2 := bucket sorted (other_inversions.getD 1 .root)
          (if paired_voicings.isEmpty then []
           else [(0, paired_voicings.headD default)])
          ++ (if b1.isEmpty then []
              else [(1, b1.getD (min (b1.length - 1) (b1.length / 3)) default)])
          ++ (if 1 < other_inversions.length && !b2.isEmpty then
                [(2, b2.getD (max 0 (b2.length * 2 / 3)) default)]
              else [])
          ++ (if paired_voicings.isEmpty then []
              else [(3, paired_voicings.getLastD default)])

/-! ### Coordinated selector `select_4_positions_coordinated` -/

/-- Scaled chain mean: `12 * (sum of the 4 member avg_frets / 4)`. -/
def chain_fret_sum (c : Chain) : Nat :=
  c.c0.fret_sum + c.c1.fret_sum + c.c2.fret_sum + c.c3.fret_sum

/-- Comparison for sorting chains by mean average fret. -/
def chainLe (a b : Chain) : Bool := chain_fret_sum a ≤ chain_fret_sum b

/-- Stable sort of chains by mean average fret. -/
def sortChains (cs : List Chain) : List Chain := insertionSort chainLe cs

/-- The `chains_by_pattern[inv]` bucket, already sorted by mean average
fret: Python collects `(avg_fret, chain)` pairs per inversion of the
chain's group-0 voicing, in chain order, then stable-sorts each bucket. -/
def chainBucket (chains : List Chain) (inv : Inversion) : List Chain :=
  sortChains (chains.filter (fun c => c.c0.inversion = inv))

/-- The comparison of the global chain sort, Python `key=lambda x: x[0]`
on `(avg_fret, chain)` pairs. -/
def pairLe (a b : Nat × Chain) : Bool := a.1 ≤ b.1

/-- `select_4_positions_coordinated`: chain discovery, fallback when fewer
than 4 chains exist, position-0/position-3 pairing on `all_chains_sorted`,
quantile picks for positions 1 and 2 from the two other inversions'
buckets, then redistribution of the selected chains into the 4 groups
with enumeration-order position tags.

Note the comprehension at main.py line 536,
`all_chains_sorted = [(avg_fret, chain) for chain in chains]`: it reuses
the stale `avg_fret` left behind by the preceding bucket loop (the mean
of the LAST chain), so every pair carries the same key and the stable
sort is a no-op — the chains stay in discovery order, and position 0 gets
`chains[0]`, not the lowest-mean chain.  We embed the constant-key pair
list and its stable sort literally.  The unused Python parameter
`triad_pcs` is kept for signature fidelity. -/
def select_4_positions_coordinated (all_group_voicings : List (List Voicing))
    (triad_pcs : List Nat) : List (List (Nat × Voicing)) :=
  let chains := find_voicing_chains all_group_voicings
  if chains.length < 4 then
    all_group_voicings.map select_4_positions
  else
    let all_chains_sorted := insertionSort pairLe
      (chains.map (fun chain => (chain_fret_sum (chains.getLastD default), chain)))
    let pos0_chain := (all_chains_sorted.headD default).2
    let paired_inv := pos0_chain.c0.inversion
    match (all_chains_sorted.filter
        (fun c => c.2.c0.inversion = paired_inv)).getLast? with
    | none => all_group_voicings.map select_4_positions
    | some pos3_pair =>
      let pos3_chain := pos3_pair.2
      let other_invs := inversion_types.filter (· ≠ paired_inv)
      let b1 := chainBucket chains (other_invs.getD 0 .root)
      let b2 := chainBucket chains (other_invs.getD 1 .root)
      let selected_chains : List Chain :=
        [pos0_chain]
        ++ (if b1.isEmpty then []
            else [b1.getD (min (b1.length - 1) (b1.length / 3)) default])
        ++ (if 1 < other_invs.length && !b2.isEmpty then
              [b2.getD (max 0 (b2.length * 2 / 3)) default]
            else [])
        ++ [pos3_chain]
      (List.range 4).map (fun group_idx =>
        selected_chains.enum.map (fun p => (p.1, p.2.get group_idx)))

/-! ### Single-note position finder -/

/-- Candidate comparison: ascending lexicographic `(distance, string_idx,
fret)`, the Python sort key `(x[0], x[2], x[1])` on `(distance, fret,
string_idx)` tuples. -/
def candLe (a b : Nat × Nat × Nat) : Bool :=
  (a.1 < b.1) ||
  (a.1 = b.1 && (a.2.2 < b.2.2 || (a.2.2 = b.2.2 && a.2.1 ≤ b.2.1)))

/-- The candidate list of `find_best_position`: every `(string, fret)`
position of the fretboard sounding the target pitch class, as a
`(distance, fret, string_idx)` triple, in string-major scan order. -/
def fbpCandidates (note : String) (target_fret : Int)
    (fretboard : Nat → Nat → Nat) : List (Nat × Nat × Nat) :=
  let target_pc := name_to_pc note
  (List.range 6).flatMap (fun string_idx =>
    (List.range 21).filterMap (fun fret =>
      if fretboard string_idx fret = target_pc then
        some (((fret : Int) - target_fret).natAbs, fret, string_idx)
      else none))

/-- `find_best_position`: sort the candidates by `(distance, string_idx,
fret)` and return the first as `(string_idx, open_string_name, fret)`;
`none` models the `ValueError` on an empty candidate list. -/
def find_best_position (note : String) (target_fret : Int)
    (fretboard : Nat → Nat → Nat) : Option (Nat × String × Nat) :=
  match (insertionSort candLe (fbpCandidates note target_fret fretboard)).head? with
  | none => none
  | some c => some (c.2.2, STRING_NAMES.getD c.2.2 "", c.2.1)

/-! ### The 4-string-group pipeline -/

/-- The four overlapping string groups used for triads. -/
def string_groups : List (List Nat) := [[0, 1, 2], [1, 2, 3], [2, 3, 4], [3, 4, 5]]

/-- Per-key voicing lists: the enumerator on each string group of the
standard fretboard with the default `max_stretch = 5`. -/
def groupVoicings (key : String) : List (List Voicing) :=
  string_groups.map (fun sg =>
    find_all_triad_voicings (build_major_triad key) sg build_fretboard 5)

/-- The full triad pipeline for one key, as run by the API and tests. -/
def pipeline (key : String) : List (List (Nat × Voicing)) :=
  select_4_positions_coordinated (groupVoicings key) (build_major_triad key)

/-! ### Helper lemmas -/

theorem subsetB_iff (xs ys : List Nat) :
    subsetB xs ys = true ↔ ∀ a ∈ xs, a ∈ ys := by
  simp only [subsetB, List.all_eq_true, List.contains, List.elem_eq_mem,
    decide_eq_true_eq]

theorem sameSetB_iff (xs ys : List Nat) :
    sameSetB xs ys = true ↔ (∀ a ∈ xs, a ∈ ys) ∧ ∀ a ∈ ys, a ∈ xs := by
  simp [sameSetB, subsetB_iff]

/-- Structural characterization of the voicings emitted by the enumerator. -/
theorem mem_find_all_triad_voicings
    {triad_pcs string_group : List Nat} {fb : Nat → Nat → Nat} {ms : Nat}
    {v : Voicing} (hv : v ∈ find_all_triad_voicings triad_pcs string_group fb ms) :
    ∃ f1 f2 f3,
      f1 < 21 ∧ f2 < 21 ∧ f3 < 21 ∧
      v.strings = string_group ∧
      v.frets = [f1, f2, f3] ∧
      v.notes = [fb (string_group.getD 0 0) f1, fb (string_group.getD 1 0) f2,
                 fb (string_group.getD 2 0) f3] ∧
      sameSetB v.notes triad_pcs = true ∧
      max f1 (max f2 f3) - min f1 (min f2 f3) ≤ ms ∧
      v.inversion = identify_inversion v.notes triad_pcs ∧
      v.fret_sum = f1 + f2 + f3 := by
  unfold find_all_triad_voicings at hv
  rcases List.mem_flatMap.mp hv with ⟨f1, hf1, hv1⟩
  rw [List.mem_range] at hf1
  by_cases h1 : fb (string_group.getD 0 0) f1 ∈ triad_pcs
  · rw [if_pos h1] at hv1
    rcases List.mem_flatMap.mp hv1 with ⟨f2, hf2, hv2⟩
    rw [List.mem_range] at hf2
    by_cases h2 : fb (string_group.getD 1 0) f2 ∈ triad_pcs
    · rw [if_pos h2] at hv2
      rcases List.mem_filterMap.mp hv2 with ⟨f3, hf3, hv3⟩
      rw [List.mem_range] at hf3
      by_cases h3 : fb (string_group.getD 2 0) f3 ∈ triad_pcs
      · rw [if_pos h3] at hv3
        by_cases h4 : sameSetB [fb (string_group.getD 0 0) f1,
            fb (string_group.getD 1 0) f2, fb (string_group.getD 2 0) f3] triad_pcs = true
        · rw [if_pos h4] at hv3
          by_cases h5 : max f1 (max f2 f3) - min f1 (min f2 f3) ≤ ms
          · rw [if_pos h5] at hv3
            have hveq := Option.some_inj.mp hv3
            refine ⟨f1, f2, f3, hf1, hf2, hf3, ?_⟩
            subst hveq
            exact ⟨rfl, rfl, rfl, h4, h5, rfl, rfl⟩
          · rw [if_neg h5] at hv3
            exact absurd hv3 (by simp)
        · rw [if_neg h4] at hv3
          exact absurd hv3 (by simp)
      · rw [if_neg h3] at hv3
        exact absurd hv3 (by simp)
    · rw [if_neg h2] at hv2
      exact absurd hv2 (by simp)
  · rw [if_neg h1] at hv1
    exact absurd hv1 (by simp)

/-- Structural characterization of the chains found by `find_voicing_chains`. -/
theorem mem_find_voicing_chains {gs : List (List Voicing)} {c : Chain}
    (hc : c ∈ find_voicing_chains gs) :
    c.c0 ∈ gs.getD 0 [] ∧ c.c1 ∈ gs.getD 1 [] ∧ c.c2 ∈ gs.getD 2 [] ∧
    c.c3 ∈ gs.getD 3 [] ∧
    voicings_share_notes c.c0 c.c1 = true ∧
    voicings_share_notes c.c1 c.c2 = true ∧
    voicings_share_notes c.c2 c.c3 = true := by
  unfold find_voicing_chains at hc
  rcases List.mem_flatMap.mp hc with ⟨v0, h0, hc1⟩
  rcases List.mem_flatMap.mp hc1 with ⟨v1, h1, hc2⟩
  by_cases hs01 : voicings_share_notes v0 v1 = true
  · rw [if_pos hs01] at hc2
    rcases List.mem_flatMap.mp hc2 with ⟨v2, h2, hc3⟩
    by_cases hs12 : voicings_share_notes v1 v2 = true
    · rw [if_pos hs12] at hc3
      rcases List.mem_filterMap.mp hc3 with ⟨v3, h3, hc4⟩
      by_cases hs23 : voicings_share_notes v2 v3 = true
      · rw [if_pos hs23] at hc4
        cases Option.some_inj.mp hc4
        exact ⟨h0, h1, h2, h3, hs01, hs12, hs23⟩
      · rw [if_neg hs23] at hc4
        exact absurd hc4 (by simp)
    · rw [if_neg hs12] at hc3
      exact absurd hc3 (by simp)
  · rw [if_neg hs01] at hc2
    exact absurd hc2 (by simp)

/-! ### Claim theorems -/

/-- Claim C10: for each of the 7 modes, the 6-symbol window read from the
circular base sequence `X X X Y Y Z Z` at the mode's fixed start index
(`base[(start+i) mod 7]` for `i = 0..5`) equals the literal fixture:
Ionian XXYYZZ, Dorian ZXXXYY, Phrygian YZZXXX, Lydian XYYZZX,
Mixolydian XXXYYZ, Aeolian ZZXXXY, Locrian YYZZXX. -/
theorem C10_xyz_pattern_table :
    xyz_window_for_mode "Ionian" = ["X", "X", "Y", "Y", "Z", "Z"] ∧
    xyz_window_for_mode "Dorian" = ["Z", "X", "X", "X", "Y", "Y"] ∧
    xyz_window_for_mode "Phrygian" = ["Y", "Z", "Z", "X", "X", "X"] ∧
    xyz_window_for_mode "Lydian" = ["X", "Y", "Y", "Z", "Z", "X"] ∧
    xyz_window_for_mode "Mixolydian" = ["X", "X", "X", "Y", "Y", "Z"] ∧
    xyz_window_for_mode "Aeolian" = ["Z", "Z", "X", "X", "X", "Y"] ∧
    xyz_window_for_mode "Locrian" = ["Y", "Y", "Z", "Z", "X", "X"] ∧
    get_xyz_display_string "Ionian" = "XXYYZZ" ∧
    get_xyz_display_string "Dorian" = "ZXXXYY" ∧
    get_xyz_display_string "Phrygian" = "YZZXXX" ∧
    get_xyz_display_string "Lydian" = "XYYZZX" ∧
    get_xyz_display_string "Mixolydian" = "XXXYYZ" ∧
    get_xyz_display_string "Aeolian" = "ZZXXXY" ∧
    get_xyz_display_string "Locrian" = "YYZZXX" := by
  decide

/-- Claim C5: triad closure.  For every triad of 3 pairwise-distinct pitch
classes, every 3-string group, every fretboard and every max_stretch,
every voicing returned by `find_all_triad_voicings` has
`set(voicing.notes) == set(triad_pcs)`: each of its 3 notes is a triad
member and all three triad pitch classes occur among them. -/
theorem C5_triad_closure (triad_pcs string_group : List Nat)
    (fb : Nat → Nat → Nat) (max_stretch : Nat)
    (hlen : triad_pcs.length = 3) (hnd : triad_pcs.Nodup) (v : Voicing)
    (hv : v ∈ find_all_triad_voicings triad_pcs string_group fb max_stretch) :
    v.notes.length = 3 ∧ (∀ x ∈ v.notes, x ∈ triad_pcs) ∧
    ∀ x ∈ triad_pcs, x ∈ v.notes := by
  rcases mem_find_all_triad_voicings hv with
    ⟨f1, f2, f3, _, _, _, _, _, hnotes, hss, _, _, _⟩
  rcases (sameSetB_iff _ _).mp hss with ⟨hsub1, hsub2⟩
  refine ⟨?_, hsub1, hsub2⟩
  rw [hnotes]
  rfl

/-- The C-major open-position voicing on strings G-B-E, used as concrete
witness input below. -/
def openCVoicing : Voicing :=
  { strings := [3, 4, 5], frets := [0, 1, 0], notes := [7, 0, 4],
    inversion := .second, fret_sum := 1 }

/-- Witness for C5 at the C-major open-position voicing on strings G-B-E. -/
theorem C5_triad_closure_witness :
    (([0, 4, 7] : List Nat).length = 3 ∧ ([0, 4, 7] : List Nat).Nodup ∧
      openCVoicing ∈ find_all_triad_voicings [0, 4, 7] [3, 4, 5] build_fretboard 5) ∧
    (openCVoicing.notes.length = 3 ∧
      (∀ x ∈ openCVoicing.notes, x ∈ [0, 4, 7]) ∧
      ∀ x ∈ [0, 4, 7], x ∈ openCVoicing.notes) :=
  ⟨⟨by decide, by decide, by decide⟩,
   C5_triad_closure [0, 4, 7] [3, 4, 5] build_fretboard 5 (by decide) (by decide)
     openCVoicing (by decide)⟩

/-- Claim C6: stretch bound.  Every voicing returned by
`find_all_triad_voicings` (default `max_stretch = 5`) has
`max(frets) - min(frets) ≤ max_stretch`, with each fret in 0..20. -/
theorem C6_stretch_bound (triad_pcs string_group : List Nat)
    (fb : Nat → Nat → Nat) (max_stretch : Nat) (v : Voicing)
    (hv : v ∈ find_all_triad_voicings triad_pcs string_group fb max_stretch) :
    ∃ f1 f2 f3, v.frets = [f1, f2, f3] ∧
      max f1 (max f2 f3) - min f1 (min f2 f3) ≤ max_stretch ∧
      f1 ≤ 20 ∧ f2 ≤ 20 ∧ f3 ≤ 20 := by
  rcases mem_find_all_triad_voicings hv with
    ⟨f1, f2, f3, hf1, hf2, hf3, _, hfr, _, _, hstretch, _, _⟩
  exact ⟨f1, f2, f3, hfr, hstretch, by omega, by omega, by omega⟩

/-- Witness for C6 at the same concrete C-major voicing. -/
theorem C6_stretch_bound_witness :
    (openCVoicing ∈ find_all_triad_voicings [0, 4, 7] [3, 4, 5] build_fretboard 5) ∧
    (∃ f1 f2 f3, openCVoicing.frets = [f1, f2, f3] ∧
      max f1 (max f2 f3) - min f1 (min f2 f3) ≤ 5 ∧
      f1 ≤ 20 ∧ f2 ≤ 20 ∧ f3 ≤ 20) :=
  ⟨by decide,
   C6_stretch_bound [0, 4, 7] [3, 4, 5] build_fretboard 5 openCVoicing (by decide)⟩

/-- Claim C3: chain continuity.  Every chain returned by
`find_voicing_chains` consists of one voicing per string group in order,
and for each adjacent pair the earlier voicing's notes and frets at
indices 1 and 2 equal the later voicing's notes and frets at
indices 0 and 1. -/
theorem C3_chain_continuity (gs : List (List Voicing)) (c : Chain)
    (hc : c ∈ find_voicing_chains gs) :
    (c.c0 ∈ gs.getD 0 [] ∧ c.c1 ∈ gs.getD 1 [] ∧ c.c2 ∈ gs.getD 2 [] ∧
     c.c3 ∈ gs.getD 3 []) ∧
    ((c.c0.notes.drop 1).take 2 = c.c1.notes.take 2 ∧
     (c.c0.frets.drop 1).take 2 = c.c1.frets.take 2) ∧
    ((c.c1.notes.drop 1).take 2 = c.c2.notes.take 2 ∧
     (c.c1.frets.drop 1).take 2 = c.c2.frets.take 2) ∧
    ((c.c2.notes.drop 1).take 2 = c.c3.notes.take 2 ∧
     (c.c2.frets.drop 1).take 2 = c.c3.frets.take 2) := by
  rcases mem_find_voicing_chains hc with ⟨h0, h1, h2, h3, hs01, hs12, hs23⟩
  rw [voicings_share_notes, Bool.and_eq_true, beq_iff_eq, beq_iff_eq] at hs01 hs12 hs23
  exact ⟨⟨h0, h1, h2, h3⟩, hs01, hs12, hs23⟩

/-- A degenerate all-zero voicing and the single-chain witness input. -/
def zeroVoicing : Voicing :=
  { strings := [], frets := [0, 0, 0], notes := [0, 0, 0],
    inversion := .root, fret_sum := 0 }

/-- One-voicing-per-group input whose only chain is four copies of
`zeroVoicing`. -/
def zeroGroups : List (List Voicing) :=
  [[zeroVoicing], [zeroVoicing], [zeroVoicing], [zeroVoicing]]

/-- Witness for C3 on the one-chain input. -/
theorem C3_chain_continuity_witness :
    ((⟨zeroVoicing, zeroVoicing, zeroVoicing, zeroVoicing⟩ : Chain) ∈
      find_voicing_chains zeroGroups) ∧
    (zeroVoicing.notes.drop 1).take 2 = zeroVoicing.notes.take 2 :=
  ⟨by decide,
   (C3_chain_continuity zeroGroups ⟨zeroVoicing, zeroVoicing, zeroVoicing, zeroVoicing⟩
     (by decide)).2.1.1⟩

/-- Claim C1: selector completeness.  For every one of the 12 canonical
sharp root keys, the coordinated selector applied to the enumerator's four
voicing lists (max_stretch 5, string groups [0,1,2], [1,2,3], [2,3,4],
[3,4,5], standard fretboard) returns exactly 4 lists, one per string
group, each containing exactly 4 voicings, each tagged with a position
index (the tags are 0,1,2,3 in order). -/
theorem C1_selector_completeness :
    ∀ key ∈ NOTE_NAMES_SHARP,
      (pipeline key).length = 4 ∧
      ∀ g ∈ pipeline key, g.length = 4 ∧ g.map Prod.fst = [0, 1, 2, 3] := by
  decide

/-- Witness for C1 at key C. -/
theorem C1_selector_completeness_witness :
    ("C" ∈ NOTE_NAMES_SHARP) ∧
    ((pipeline "C").length = 4 ∧
      ∀ g ∈ pipeline "C", g.length = 4 ∧ g.map Prod.fst = [0, 1, 2, 3]) :=
  ⟨by decide, C1_selector_completeness "C" (by decide)⟩

/-- Claim C4: no duplicate positions.  For every one of the 12 root keys,
within each string group's 4 selected voicings of the coordinated
selector, the 4 fret-triples are pairwise distinct. -/
theorem C4_no_duplicate_positions :
    ∀ key ∈ NOTE_NAMES_SHARP, ∀ g ∈ pipeline key,
      (g.map (fun p => p.2.frets)).Nodup := by
  decide

/-- Witness for C4 at key C, group 0. -/
theorem C4_no_duplicate_positions_witness :
    ("C" ∈ NOTE_NAMES_SHARP ∧ (pipeline "C").getD 0 [] ∈ pipeline "C") ∧
    (((pipeline "C").getD 0 []).map (fun p => p.2.frets)).Nodup :=
  ⟨⟨by decide, by decide⟩,
   C4_no_duplicate_positions "C" (by decide) ((pipeline "C").getD 0 []) (by decide)⟩

theorem insertionSort_eq_nil_iff (le : α → α → Bool) (l : List α) :
    insertionSort le l = [] ↔ l = [] := by
  constructor
  · intro h
    have hlen := length_insertionSort le l
    rw [h] at hlen
    exact List.length_eq_zero.mp hlen.symm
  · intro h
    rw [h]
    rfl

/-- The head of the stable sort is a member of the input and is `le` every
member of the input. -/
theorem insertionSort_head_min (le : α → α → Bool)
    (htot : ∀ a b, le a b = true ∨ le b a = true)
    (htrans : ∀ a b c, le a b = true → le b c = true → le a c = true)
    (hrefl : ∀ a, le a a = true)
    (l : List α) (m : α) (hm : (insertionSort le l).head? = some m) :
    m ∈ l ∧ ∀ x ∈ l, le m x = true := by
  have hp := pairwise_insertionSort le htot htrans l
  cases hs : insertionSort le l with
  | nil => rw [hs] at hm; simp at hm
  | cons a t =>
      rw [hs] at hm hp
      have ham : a = m := by simpa using hm
      subst ham
      constructor
      · have : a ∈ insertionSort le l := by rw [hs]; exact List.mem_cons_self a t
        exact (mem_insertionSort le a l).mp this
      · intro x hx
        have hx2 : x ∈ a :: t := by
          rw [← hs]
          exact (mem_insertionSort le x l).mpr hx
        rcases List.mem_cons.mp hx2 with rfl | hx2
        · exact hrefl x
        · exact pairwise_head_le hp x hx2

theorem candLe_iff (a b : Nat × Nat × Nat) :
    candLe a b = true ↔
      (a.1 < b.1 ∨ (a.1 = b.1 ∧ (a.2.2 < b.2.2 ∨ (a.2.2 = b.2.2 ∧ a.2.1 ≤ b.2.1)))) := by
  simp [candLe, Bool.or_eq_true, Bool.and_eq_true, decide_eq_true_eq]

theorem candLe_total (a b : Nat × Nat × Nat) :
    candLe a b = true ∨ candLe b a = true := by
  rw [candLe_iff, candLe_iff]
  omega

theorem candLe_trans (a b c : Nat × Nat × Nat) :
    candLe a b = true → candLe b c = true → candLe a c = true := by
  rw [candLe_iff, candLe_iff, candLe_iff]
  omega

theorem candLe_refl (a : Nat × Nat × Nat) : candLe a a = true := by
  rw [candLe_iff]
  omega

/-- Characterization of the finder's candidate list. -/
theorem mem_fbpCandidates {note : String} {t : Int} {fb : Nat → Nat → Nat}
    {c : Nat × Nat × Nat} :
    c ∈ fbpCandidates note t fb ↔
      ∃ s f, s < 6 ∧ f < 21 ∧ fb s f = name_to_pc note ∧
        c = (((f : Int) - t).natAbs, f, s) := by
  unfold fbpCandidates
  simp only [List.mem_flatMap, List.mem_filterMap, List.mem_range]
  constructor
  · rintro ⟨s, hs, f, hf, hc⟩
    by_cases h : fb s f = name_to_pc note
    · rw [if_pos h] at hc
      exact ⟨s, f, hs, hf, h, (Option.some_inj.mp hc).symm⟩
    · rw [if_neg h] at hc
      exact absurd hc (by simp)
  · rintro ⟨s, f, hs, hf, h, rfl⟩
    exact ⟨s, hs, f, hf, by rw [if_pos h]⟩

/-- Shared characterization: when the pitch class occurs somewhere, the
finder returns the unique lexicographically minimal candidate. -/
theorem fbp_minimal (note : String) (target_fret : Int)
    (fb : Nat → Nat → Nat)
    (h : ∃ s, s < 6 ∧ ∃ f, f < 21 ∧ fb s f = name_to_pc note) :
    ∃ s f, find_best_position note target_fret fb =
        some (s, STRING_NAMES.getD s "", f) ∧
      s < 6 ∧ f < 21 ∧ fb s f = name_to_pc note ∧
      ∀ s2 f2, s2 < 6 → f2 < 21 → fb s2 f2 = name_to_pc note →
        (s2, f2) ≠ (s, f) →
        (((f : Int) - target_fret).natAbs < ((f2 : Int) - target_fret).natAbs ∨
         (((f : Int) - target_fret).natAbs = ((f2 : Int) - target_fret).natAbs ∧
          (s < s2 ∨ (s = s2 ∧ f < f2)))) := by
  obtain ⟨s0, hs0, f0, hf0, hfb0⟩ := h
  have hne : fbpCandidates note target_fret fb ≠ [] := by
    intro hnil
    have : (((f0 : Int) - target_fret).natAbs, f0, s0) ∈ fbpCandidates note target_fret fb :=
      mem_fbpCandidates.mpr ⟨s0, f0, hs0, hf0, hfb0, rfl⟩
    rw [hnil] at this
    exact absurd this (by simp)
  have hsne : insertionSort candLe (fbpCandidates note target_fret fb) ≠ [] := by
    intro hnil
    exact hne ((insertionSort_eq_nil_iff _ _).mp hnil)
  obtain ⟨m, hm⟩ : ∃ m, (insertionSort candLe (fbpCandidates note target_fret fb)).head? = some m := by
    cases hx : insertionSort candLe (fbpCandidates note target_fret fb) with
    | nil => exact absurd hx hsne
    | cons a t => exact ⟨a, rfl⟩
  obtain ⟨hmmem, hmmin⟩ :=
    insertionSort_head_min candLe candLe_total candLe_trans candLe_refl _ m hm
  obtain ⟨s, f, hs, hf, hfb, hmeq⟩ := mem_fbpCandidates.mp hmmem
  refine ⟨s, f, ?_, hs, hf, hfb, ?_⟩
  · unfold find_best_position
    rw [hm, hmeq]
  · intro s2 f2 hs2 hf2 hfb2 hne2
    have hx : (((f2 : Int) - target_fret).natAbs, f2, s2) ∈ fbpCandidates note target_fret fb :=
      mem_fbpCandidates.mpr ⟨s2, f2, hs2, hf2, hfb2, rfl⟩
    have hle := hmmin _ hx
    rw [hmeq] at hle
    rw [candLe_iff] at hle
    simp only at hle
    have hne3 : ¬(s2 = s ∧ f2 = f) := by
      intro hh
      exact hne2 (by rw [hh.1, hh.2])
    omega

/-- Claim C8: `find_best_position` returns, among all fretboard positions
sounding the requested pitch class, the unique candidate minimal under
ascending lexicographic order of `(distance, string_idx, fret)` where
`distance = |fret - target_fret|`. -/
theorem C8_best_position_minimal (note : String) (target_fret : Int)
    (fb : Nat → Nat → Nat)
    (h : ∃ s, s < 6 ∧ ∃ f, f < 21 ∧ fb s f = name_to_pc note) :
    ∃ s f, find_best_position note target_fret fb =
        some (s, STRING_NAMES.getD s "", f) ∧
      s < 6 ∧ f < 21 ∧ fb s f = name_to_pc note ∧
      ∀ s2 f2, s2 < 6 → f2 < 21 → fb s2 f2 = name_to_pc note →
        (s2, f2) ≠ (s, f) →
        (((f : Int) - target_fret).natAbs < ((f2 : Int) - target_fret).natAbs ∨
         (((f : Int) - target_fret).natAbs = ((f2 : Int) - target_fret).natAbs ∧
          (s < s2 ∨ (s = s2 ∧ f < f2)))) :=
  fbp_minimal note target_fret fb h

/-- Witness for C8: A sharp near fret 12 on the standard fretboard (the
repository's own regression scenario; the minimum is string 1, fret 13). -/
theorem C8_best_position_minimal_witness :
    (∃ s, s < 6 ∧ ∃ f, f < 21 ∧ build_fretboard s f = name_to_pc "A#") ∧
    (∃ s f, find_best_position "A#" 12 build_fretboard =
        some (s, STRING_NAMES.getD s "", f) ∧
      s < 6 ∧ f < 21 ∧ build_fretboard s f = name_to_pc "A#" ∧
      ∀ s2 f2, s2 < 6 → f2 < 21 → build_fretboard s2 f2 = name_to_pc "A#" →
        (s2, f2) ≠ (s, f) →
        (((f : Int) - 12).natAbs < ((f2 : Int) - 12).natAbs ∨
         (((f : Int) - 12).natAbs = ((f2 : Int) - 12).natAbs ∧
          (s < s2 ∨ (s = s2 ∧ f < f2))))) :=
  ⟨⟨1, by omega, 13, by omega, by decide⟩,
   C8_best_position_minimal "A#" 12 build_fretboard ⟨1, by omega, 13, by omega, by decide⟩⟩

/-- Claim C9: the finder reports the note-not-found error exactly when the
pitch class occurs nowhere on the fretboard, and on the standard fretboard
this branch is unreachable for all 12 sharp names and every integer target
fret. -/
theorem C9_note_not_found_unreachable :
    (∀ (note : String) (t : Int) (fb : Nat → Nat → Nat),
        find_best_position note t fb = none ↔
          ¬ ∃ s, s < 6 ∧ ∃ f, f < 21 ∧ fb s f = name_to_pc note) ∧
    (∀ note ∈ NOTE_NAMES_SHARP, ∀ t : Int,
        (find_best_position note t build_fretboard).isSome = true) := by
  have hiff : ∀ (note : String) (t : Int) (fb : Nat → Nat → Nat),
      find_best_position note t fb = none ↔
        ¬ ∃ s, s < 6 ∧ ∃ f, f < 21 ∧ fb s f = name_to_pc note := by
    intro note t fb
    constructor
    · intro hnone hex
      obtain ⟨s, f, hres, _⟩ := fbp_minimal note t fb hex
      rw [hres] at hnone
      exact absurd hnone (by simp)
    · intro hnex
      unfold find_best_position
      cases hx : (insertionSort candLe (fbpCandidates note t fb)).head? with
      | none => rfl
      | some m =>
          obtain ⟨hmmem, _⟩ :=
            insertionSort_head_min candLe candLe_total candLe_trans candLe_refl _ m hx
          obtain ⟨s, f, hs, hf, hfb, _⟩ := mem_fbpCandidates.mp hmmem
          exact absurd ⟨s, hs, f, hf, hfb⟩ hnex
  refine ⟨hiff, ?_⟩
  intro note hnote t
  have hex : ∃ s, s < 6 ∧ ∃ f, f < 21 ∧ build_fretboard s f = name_to_pc note := by
    simp only [NOTE_NAMES_SHARP, List.mem_append, List.mem_cons, List.not_mem_nil,
      or_false] at hnote
    rcases hnote with (rfl | rfl | rfl | rfl | rfl | rfl) | (rfl | rfl | rfl | rfl | rfl | rfl)
    · exact ⟨0, by omega, 8, by omega, by decide⟩
    · exact ⟨0, by omega, 9, by omega, by decide⟩
    · exact ⟨0, by omega, 10, by omega, by decide⟩
    · exact ⟨0, by omega, 11, by omega, by decide⟩
    · exact ⟨0, by omega, 0, by omega, by decide⟩
    · exact ⟨0, by omega, 1, by omega, by decide⟩
    · exact ⟨0, by omega, 2, by omega, by decide⟩
    · exact ⟨0, by omega, 3, by omega, by decide⟩
    · exact ⟨0, by omega, 4, by omega, by decide⟩
    · exact ⟨0, by omega, 5, by omega, by decide⟩
    · exact ⟨0, by omega, 6, by omega, by decide⟩
    · exact ⟨0, by omega, 7, by omega, by decide⟩
  rw [Option.isSome_iff_ne_none]
  intro hnone
  exact (hiff note t build_fretboard).mp hnone hex

/-- Witness for C9 at note C, target fret 0. -/
theorem C9_note_not_found_unreachable_witness :
    ("C" ∈ NOTE_NAMES_SHARP) ∧
    (find_best_position "C" 0 build_fretboard).isSome = true :=
  ⟨by decide, C9_note_not_found_unreachable.2 "C" (by decide) 0⟩

/-! ### Order lemmas for the voicing and chain comparisons -/

theorem voicingLe_total (a b : Voicing) :
    voicingLe a b = true ∨ voicingLe b a = true := by
  simp only [voicingLe, decide_eq_true_eq]
  omega

theorem voicingLe_trans (a b c : Voicing) :
    voicingLe a b = true → voicingLe b c = true → voicingLe a c = true := by
  simp only [voicingLe, decide_eq_true_eq]
  omega

theorem voicingLe_refl (a : Voicing) : voicingLe a a = true := by
  simp only [voicingLe, decide_eq_true_eq]
  omega

theorem chainLe_total (a b : Chain) :
    chainLe a b = true ∨ chainLe b a = true := by
  simp only [chainLe, decide_eq_true_eq]
  omega

theorem chainLe_trans (a b c : Chain) :
    chainLe a b = true → chainLe b c = true → chainLe a c = true := by
  simp only [chainLe, decide_eq_true_eq]
  omega

theorem chainLe_refl (a : Chain) : chainLe a a = true := by
  simp only [chainLe, decide_eq_true_eq]
  omega

/-- In a nonempty pairwise-`le` list, the default-head is `le` every member. -/
theorem pairwise_headD_le {le : α → α → Bool} [Inhabited α] {l : List α}
    (hrefl : ∀ a, le a a = true)
    (hp : l.Pairwise (fun x y => le x y = true)) :
    ∀ x ∈ l, le (l.headD default) x = true := by
  cases l with
  | nil => intro x hx; simp at hx
  | cons a t =>
      intro x hx
      rcases List.mem_cons.mp hx with rfl | hx
      · exact hrefl x
      · exact pairwise_head_le hp x hx

/-- In a nonempty pairwise-`le` list, every member is `le` the default-last. -/
theorem pairwise_le_getLastD {le : α → α → Bool} [Inhabited α] {l : List α}
    (hrefl : ∀ a, le a a = true) (hne : l ≠ [])
    (hp : l.Pairwise (fun x y => le x y = true)) :
    ∀ x ∈ l, le x (l.getLastD default) = true := by
  cases hm : l.getLast? with
  | none => exact absurd (List.getLast?_eq_none_iff.mp hm) hne
  | some m =>
      intro x hx
      have hld : l.getLastD default = m := by
        rw [List.getLastD_eq_getLast?, hm]
        rfl
      rw [hld]
      rcases pairwise_le_getLast hp hm x hx with rfl | hle
      · exact hrefl x
      · exact hle

/-! ### The best-paired-inversion loop -/

theorem bpStep_mono (sorted : List Voicing) (acc : Option Inversion × Nat)
    (inv : Inversion) : acc.2 ≤ (bpStep sorted acc inv).2 := by
  unfold bpStep
  split
  · split
    · simp only
      omega
    · omega
  · omega

theorem bpStep_self (sorted : List Voicing) (acc : Option Inversion × Nat)
    (inv : Inversion) (h : 2 ≤ (bucket sorted inv).length) :
    span3 (bucket sorted inv) ≤ (bpStep sorted acc inv).2 := by
  unfold bpStep
  rw [if_pos h]
  split
  · simp only
    omega
  · omega

theorem bpStep_shape (sorted : List Voicing) (acc : Option Inversion × Nat)
    (inv : Inversion) :
    bpStep sorted acc inv = acc ∨
      ((bpStep sorted acc inv).1 = some inv ∧
       (bpStep sorted acc inv).2 = span3 (bucket sorted inv) ∧
       2 ≤ (bucket sorted inv).length) := by
  unfold bpStep
  split
  · rename_i hlen
    split
    · right
      exact ⟨rfl, rfl, hlen⟩
    · left; rfl
  · left; rfl

theorem bestPaired_spec1 (sorted : List Voicing) :
    ∀ inv ∈ inversion_types, 2 ≤ (bucket sorted inv).length →
      span3 (bucket sorted inv) ≤ (bestPaired sorted).2 := by
  intro inv hinv hlen
  have hunf : bestPaired sorted =
      bpStep sorted (bpStep sorted (bpStep sorted (none, 0) .root) .first) .second := by
    rfl
  rw [hunf]
  rcases List.mem_cons.mp hinv with rfl | hinv
  · calc span3 (bucket sorted .root)
        ≤ (bpStep sorted (none, 0) .root).2 := bpStep_self sorted _ _ hlen
      _ ≤ (bpStep sorted (bpStep sorted (none, 0) .root) .first).2 := bpStep_mono ..
      _ ≤ _ := bpStep_mono ..
  rcases List.mem_cons.mp hinv with rfl | hinv
  · calc span3 (bucket sorted .first)
        ≤ (bpStep sorted (bpStep sorted (none, 0) .root) .first).2 :=
          bpStep_self sorted _ _ hlen
      _ ≤ _ := bpStep_mono ..
  rcases List.mem_cons.mp hinv with rfl | hinv
  · exact bpStep_self sorted _ _ hlen
  · simp at hinv

theorem bestPaired_spec2 (sorted : List Voicing) (p : Inversion)
    (hp : (bestPaired sorted).1 = some p) :
    p ∈ inversion_types ∧ 2 ≤ (bucket sorted p).length ∧
      (bestPaired sorted).2 = span3 (bucket sorted p) := by
  have hunf : bestPaired sorted =
      bpStep sorted (bpStep sorted (bpStep sorted (none, 0) .root) .first) .second := by
    rfl
  rw [hunf] at hp ⊢
  rcases bpStep_shape sorted (bpStep sorted (bpStep sorted (none, 0) .root) .first) .second
    with h3 | ⟨h3a, h3b, h3c⟩
  · rw [h3] at hp ⊢
    rcases bpStep_shape sorted (bpStep sorted (none, 0) .root) .first
      with h2 | ⟨h2a, h2b, h2c⟩
    · rw [h2] at hp ⊢
      rcases bpStep_shape sorted (none, 0) .root with h1 | ⟨h1a, h1b, h1c⟩
      · rw [h1] at hp
        exact absurd hp (by simp)
      · rw [h1a] at hp
        cases Option.some_inj.mp hp
        exact ⟨by simp [inversion_types], h1c, h1b⟩
    · rw [h2a] at hp
      cases Option.some_inj.mp hp
      exact ⟨by simp [inversion_types], h2c, h2b⟩
  · rw [h3a] at hp
    cases Option.some_inj.mp hp
    exact ⟨by simp [inversion_types], h3c, h3b⟩

theorem bestPaired_spec3 (sorted : List Voicing)
    (hnone : (bestPaired sorted).1 = none) : (bestPaired sorted).2 = 0 := by
  have hunf : bestPaired sorted =
      bpStep sorted (bpStep sorted (bpStep sorted (none, 0) .root) .first) .second := by
    rfl
  rw [hunf] at hnone ⊢
  rcases bpStep_shape sorted (bpStep sorted (bpStep sorted (none, 0) .root) .first) .second
    with h3 | ⟨h3a, _, _⟩
  · rw [h3] at hnone ⊢
    rcases bpStep_shape sorted (bpStep sorted (none, 0) .root) .first
      with h2 | ⟨h2a, _, _⟩
    · rw [h2] at hnone ⊢
      rcases bpStep_shape sorted (none, 0) .root with h1 | ⟨h1a, _, _⟩
      · rw [h1]
      · rw [h1a] at hnone
        exact absurd hnone (by simp)
    · rw [h2a] at hnone
      exact absurd hnone (by simp)
  · rw [h3a] at hnone
    exact absurd hnone (by simp)

theorem isEmpty_eq_false_of_ne_nil {l : List α} (h : l ≠ []) :
    l.isEmpty = false := by
  cases l with
  | nil => exact absurd rfl h
  | cons a t => rfl

theorem other_invs_length (p : Inversion) :
    1 < (inversion_types.filter (· ≠ p)).length := by
  cases p <;> decide

/-- With more than 4 voicings and no inversion of span at least 3 (scaled:
9), the independent selector falls back to quartile sampling. -/
theorem select_4_positions_fallback (voicings : List Voicing)
    (h5 : 4 < voicings.length)
    (hnb : ¬ ∃ inv ∈ inversion_types,
        2 ≤ (bucket (sortVoicings voicings) inv).length ∧
        9 ≤ span3 (bucket (sortVoicings voicings) inv)) :
    select_4_positions voicings = quartileSelect (sortVoicings voicings) := by
  have hne : voicings.isEmpty = false := by
    cases voicings with
    | nil => simp at h5
    | cons a t => rfl
  have hn : ¬ (sortVoicings voicings).length ≤ 4 := by
    rw [sortVoicings, length_insertionSort]
    omega
  unfold select_4_positions
  simp only [hne, Bool.false_eq_true, if_false]
  rw [if_neg hn]
  split
  · rfl
  · rename_i p heq
    obtain ⟨hmem, hlen2, hsp⟩ := bestPaired_spec2 (sortVoicings voicings) p heq
    have : ¬ (2 ≤ (bucket (sortVoicings voicings) p).length ∧
        9 ≤ span3 (bucket (sortVoicings voicings) p)) := by
      intro hc
      exact hnb ⟨p, hmem, hc⟩
    have hlt : (bestPaired (sortVoicings voicings)).2 < 9 := by
      rw [hsp]
      omega
    rw [if_pos hlt]

/-- With more than 4 voicings, a paired inversion of span at least 3
(scaled: 9) and both other buckets nonempty, the independent selector
returns head-of-paired, the two quantile picks, and last-of-paired,
tagged 0..3. -/
theorem select_4_positions_branch (voicings : List Voicing) (p : Inversion)
    (h5 : 4 < voicings.length)
    (hbp : (bestPaired (sortVoicings voicings)).1 = some p)
    (hspan : 9 ≤ (bestPaired (sortVoicings voicings)).2)
    (hb1 : bucket (sortVoicings voicings)
        ((inversion_types.filter (· ≠ p)).getD 0 .root) ≠ [])
    (hb2 : bucket (sortVoicings voicings)
        ((inversion_types.filter (· ≠ p)).getD 1 .root) ≠ []) :
    select_4_positions voicings =
      [(0, (bucket (sortVoicings voicings) p).headD default),
       (1, (bucket (sortVoicings voicings)
              ((inversion_types.filter (· ≠ p)).getD 0 .root)).getD
            (min ((bucket (sortVoicings voicings)
                    ((inversion_types.filter (· ≠ p)).getD 0 .root)).length - 1)
                 ((bucket (sortVoicings voicings)
                    ((inversion_types.filter (· ≠ p)).getD 0 .root)).length / 3))
            default),
       (2, (bucket (sortVoicings voicings)
              ((inversion_types.filter (· ≠ p)).getD 1 .root)).getD
            (max 0 ((bucket (sortVoicings voicings)
                    ((inversion_types.filter (· ≠ p)).getD 1 .root)).length * 2 / 3))
            default),
       (3, (bucket (sortVoicings voicings) p).getLastD default)] := by
  have hne : voicings.isEmpty = false := by
    cases voicings with
    | nil => simp at h5
    | cons a t => rfl
  have hn : ¬ (sortVoicings voicings).length ≤ 4 := by
    rw [sortVoicings, length_insertionSort]
    omega
  obtain ⟨hmem, hlen2, hsp⟩ := bestPaired_spec2 (sortVoicings voicings) p hbp
  have hpv : (bucket (sortVoicings voicings) p).isEmpty = false := by
    apply isEmpty_eq_false_of_ne_nil
    intro hnil
    rw [hnil] at hlen2
    simp at hlen2
  have hb1e : (bucket (sortVoicings voicings)
      ((inversion_types.filter (· ≠ p)).getD 0 .root)).isEmpty = false :=
    isEmpty_eq_false_of_ne_nil hb1
  have hb2e : (bucket (sortVoicings voicings)
      ((inversion_types.filter (· ≠ p)).getD 1 .root)).isEmpty = false :=
    isEmpty_eq_false_of_ne_nil hb2
  have hnlt : ¬ (bestPaired (sortVoicings voicings)).2 < 9 := by omega
  unfold select_4_positions
  simp only [hne, Bool.false_eq_true, if_false]
  rw [if_neg hn]
  split
  · rename_i heq
    rw [heq] at hbp
    exact absurd hbp (by simp)
  · rename_i q heq
    rw [heq] at hbp
    cases Option.some_inj.mp hbp
    rw [if_neg hnlt]
    rw [hpv, hb1e, hb2e]
    simp only [Bool.false_eq_true, if_false, if_true, Bool.not_false, Bool.and_true,
      decide_eq_true_eq, other_invs_length p, if_pos]
    rfl

theorem headD_mem {β : Type u_1} [Inhabited β] {l : List β} (h : l ≠ []) :
    l.headD default ∈ l := by
  cases l with
  | nil => exact absurd rfl h
  | cons a t => exact List.mem_cons_self a t

/-- Five root-inversion voicings spanning 10 frets: the independent
selector's inversion branch fires, but both non-paired buckets are empty,
so the returned list has no position-1 or position-2 entry. -/
def cexVoicings : List Voicing :=
  [{ strings := [], frets := [], notes := [], inversion := .root, fret_sum := 0 },
   { strings := [], frets := [], notes := [], inversion := .root, fret_sum := 3 },
   { strings := [], frets := [], notes := [], inversion := .root, fret_sum := 6 },
   { strings := [], frets := [], notes := [], inversion := .root, fret_sum := 9 },
   { strings := [], frets := [], notes := [], inversion := .root, fret_sum := 30 }]

/-- Counterexample to claim C7 as stated: more than 4 voicings, an
inversion with at least 2 voicings spanning at least 3 in average fret —
yet the result carries only the position tags 0 and 3: the claimed
position-1 and position-2 entries do not exist, because both non-paired
inversions have no voicings. -/
theorem C7_counterexample :
    4 < cexVoicings.length ∧
    (∃ inv ∈ inversion_types,
      2 ≤ (bucket (sortVoicings cexVoicings) inv).length ∧
      9 ≤ span3 (bucket (sortVoicings cexVoicings) inv)) ∧
    (select_4_positions cexVoicings).map Prod.fst = [0, 3] := by
  decide

/-- Claim C7 (amended): when `select_4_positions` is given more than 4
voicings, then (a) if no inversion with at least 2 voicings spans at
least 3 in average fret (scaled: 9 in `3 × avg`), the result is the
voicings at sorted indices `round(k(n-1)/4)` (Python banker's rounding)
for k = 0..3, tagged 0..3; and (b) if some inversion does, the paired
inversion `p` has at least 2 voicings, spans at least 3, and spans at
least as much as every other spanning inversion; position 0 is the
lowest-avg-fret and position 3 the highest-avg-fret voicing of `p`; and —
provided each of the two non-paired inversions has at least one voicing
(otherwise that position's entry is omitted, as the counterexample
shows) — positions 1 and 2 are the voicings at indices
`min(len-1, len//3)` and `max(0, len*2//3)` of the two non-paired
inversions' sorted sublists respectively. -/
theorem C7_independent_selector (voicings : List Voicing)
    (h5 : 4 < voicings.length) :
    ((¬ ∃ inv ∈ inversion_types,
        2 ≤ (bucket (sortVoicings voicings) inv).length ∧
        9 ≤ span3 (bucket (sortVoicings voicings) inv)) →
      select_4_positions voicings =
        [(0, (sortVoicings voicings).getD 0 default),
         (1, (sortVoicings voicings).getD
              (pyRound4 ((sortVoicings voicings).length - 1)) default),
         (2, (sortVoicings voicings).getD
              (pyRound4 (2 * ((sortVoicings voicings).length - 1))) default),
         (3, (sortVoicings voicings).getD
              (pyRound4 (3 * ((sortVoicings voicings).length - 1))) default)])
    ∧ ((∃ inv ∈ inversion_types,
        2 ≤ (bucket (sortVoicings voicings) inv).length ∧
        9 ≤ span3 (bucket (sortVoicings voicings) inv)) →
      ∃ p, 2 ≤ (bucket (sortVoicings voicings) p).length ∧
        9 ≤ span3 (bucket (sortVoicings voicings) p) ∧
        (∀ inv ∈ inversion_types,
          2 ≤ (bucket (sortVoicings voicings) inv).length →
          span3 (bucket (sortVoicings voicings) inv) ≤
            span3 (bucket (sortVoicings voicings) p)) ∧
        (∀ v ∈ bucket (sortVoicings voicings) p,
          ((bucket (sortVoicings voicings) p).headD default).fret_sum ≤ v.fret_sum ∧
          v.fret_sum ≤ ((bucket (sortVoicings voicings) p).getLastD default).fret_sum) ∧
        ((bucket (sortVoicings voicings)
            ((inversion_types.filter (· ≠ p)).getD 0 .root) ≠ [] ∧
          bucket (sortVoicings voicings)
            ((inversion_types.filter (· ≠ p)).getD 1 .root) ≠ []) →
          select_4_positions voicings =
            [(0, (bucket (sortVoicings voicings) p).headD default),
             (1, (bucket (sortVoicings voicings)
                    ((inversion_types.filter (· ≠ p)).getD 0 .root)).getD
                  (min ((bucket (sortVoicings voicings)
                          ((inversion_types.filter (· ≠ p)).getD 0 .root)).length - 1)
                       ((bucket (sortVoicings voicings)
                          ((inversion_types.filter (· ≠ p)).getD 0 .root)).length / 3))
                  default),
             (2, (bucket (sortVoicings voicings)
                    ((inversion_types.filter (· ≠ p)).getD 1 .root)).getD
                  (max 0 ((bucket (sortVoicings voicings)
                          ((inversion_types.filter (· ≠ p)).getD 1 .root)).length * 2 / 3))
                  default),
             (3, (bucket (sortVoicings voicings) p).getLastD default)])) := by
  constructor
  · intro hnb
    rw [select_4_positions_fallback voicings h5 hnb]
    rfl
  · intro hb
    obtain ⟨inv0, hinv0, hlen0, hspan0⟩ := hb
    have hbig : 9 ≤ (bestPaired (sortVoicings voicings)).2 :=
      le_trans hspan0 (bestPaired_spec1 (sortVoicings voicings) inv0 hinv0 hlen0)
    obtain ⟨p, hp⟩ : ∃ p, (bestPaired (sortVoicings voicings)).1 = some p := by
      cases hx : (bestPaired (sortVoicings voicings)).1 with
      | none =>
          have := bestPaired_spec3 (sortVoicings voicings) hx
          omega
      | some q => exact ⟨q, rfl⟩
    obtain ⟨hpmem, hplen, hpsp⟩ := bestPaired_spec2 (sortVoicings voicings) p hp
    have hpspan : 9 ≤ span3 (bucket (sortVoicings voicings) p) := by
      rw [← hpsp]
      exact hbig
    have hpmax : ∀ inv ∈ inversion_types,
        2 ≤ (bucket (sortVoicings voicings) inv).length →
        span3 (bucket (sortVoicings voicings) inv) ≤
          span3 (bucket (sortVoicings voicings) p) := by
      intro inv hinv hlen
      rw [← hpsp]
      exact bestPaired_spec1 (sortVoicings voicings) inv hinv hlen
    have hpairwise : (bucket (sortVoicings voicings) p).Pairwise
        (fun x y => voicingLe x y = true) :=
      List.Pairwise.filter _
        (pairwise_insertionSort voicingLe voicingLe_total voicingLe_trans voicings)
    have hpne : bucket (sortVoicings voicings) p ≠ [] := by
      intro hnil
      rw [hnil] at hplen
      simp at hplen
    have hminmax : ∀ v ∈ bucket (sortVoicings voicings) p,
        ((bucket (sortVoicings voicings) p).headD default).fret_sum ≤ v.fret_sum ∧
        v.fret_sum ≤ ((bucket (sortVoicings voicings) p).getLastD default).fret_sum := by
      intro v hv
      constructor
      · have := pairwise_headD_le voicingLe_refl hpairwise v hv
        simpa [voicingLe, decide_eq_true_eq] using this
      · have := pairwise_le_getLastD voicingLe_refl hpne hpairwise v hv
        simpa [voicingLe, decide_eq_true_eq] using this
    refine ⟨p, hplen, hpspan, hpmax, hminmax, ?_⟩
    rintro ⟨hb1, hb2⟩
    exact select_4_positions_branch voicings p h5 hp hbig hb1 hb2

/-- Witness for C7 (amended) on the C-major voicings of string group
3-2-1, which have 5 voicings and a spanning paired inversion. -/
theorem C7_independent_selector_witness :
    (4 < ((groupVoicings "C").getD 3 []).length) ∧
    (∃ inv ∈ inversion_types,
      2 ≤ (bucket (sortVoicings ((groupVoicings "C").getD 3 [])) inv).length ∧
      9 ≤ span3 (bucket (sortVoicings ((groupVoicings "C").getD 3 [])) inv)) ∧
    (∃ p, 2 ≤ (bucket (sortVoicings ((groupVoicings "C").getD 3 [])) p).length ∧
      9 ≤ span3 (bucket (sortVoicings ((groupVoicings "C").getD 3 [])) p) ∧
      (∀ inv ∈ inversion_types,
        2 ≤ (bucket (sortVoicings ((groupVoicings "C").getD 3 [])) inv).length →
        span3 (bucket (sortVoicings ((groupVoicings "C").getD 3 [])) inv) ≤
          span3 (bucket (sortVoicings ((groupVoicings "C").getD 3 [])) p)) ∧
      (∀ v ∈ bucket (sortVoicings ((groupVoicings "C").getD 3 [])) p,
        ((bucket (sortVoicings ((groupVoicings "C").getD 3 [])) p).headD default).fret_sum ≤
          v.fret_sum ∧
        v.fret_sum ≤
          ((bucket (sortVoicings ((groupVoicings "C").getD 3 [])) p).getLastD default).fret_sum) ∧
      ((bucket (sortVoicings ((groupVoicings "C").getD 3 []))
          ((inversion_types.filter (· ≠ p)).getD 0 .root) ≠ [] ∧
        bucket (sortVoicings ((groupVoicings "C").getD 3 []))
          ((inversion_types.filter (· ≠ p)).getD 1 .root) ≠ []) →
        select_4_positions ((groupVoicings "C").getD 3 []) =
          [(0, (bucket (sortVoicings ((groupVoicings "C").getD 3 [])) p).headD default),
           (1, (bucket (sortVoicings ((groupVoicings "C").getD 3 []))
                  ((inversion_types.filter (· ≠ p)).getD 0 .root)).getD
                (min ((bucket (sortVoicings ((groupVoicings "C").getD 3 []))
                        ((inversion_types.filter (· ≠ p)).getD 0 .root)).length - 1)
                     ((bucket (sortVoicings ((groupVoicings "C").getD 3 []))
                        ((inversion_types.filter (· ≠ p)).getD 0 .root)).length / 3))
                default),
           (2, (bucket (sortVoicings ((groupVoicings "C").getD 3 []))
                  ((inversion_types.filter (· ≠ p)).getD 1 .root)).getD
                (max 0 ((bucket (sortVoicings ((groupVoicings "C").getD 3 []))
                        ((inversion_types.filter (· ≠ p)).getD 1 .root)).length * 2 / 3))
                default),
           (3, (bucket (sortVoicings ((groupVoicings "C").getD 3 [])) p).getLastD default)])) :=
  ⟨by decide, by decide,
   (C7_independent_selector ((groupVoicings "C").getD 3 []) (by decide)).2 (by decide)⟩

theorem orderedInsert_of_le (le : α → α → Bool) (a b : α) (l : List α)
    (h : le a b = true) : orderedInsert le a (b :: l) = a :: b :: l := by
  simp [orderedInsert, h]

/-- A stable sort whose comparison accepts every pair of list members is
the identity — in particular a sort by a constant key. -/
theorem insertionSort_of_all_le (le : α → α → Bool) (l : List α)
    (h : ∀ a ∈ l, ∀ b ∈ l, le a b = true) : insertionSort le l = l := by
  induction l with
  | nil => rfl
  | cons a t ih =>
      have ht : insertionSort le t = t :=
        ih (fun x hx y hy =>
          h x (List.mem_cons_of_mem a hx) y (List.mem_cons_of_mem a hy))
      show orderedInsert le a (insertionSort le t) = a :: t
      rw [ht]
      cases t with
      | nil => rfl
      | cons b t2 =>
          exact orderedInsert_of_le le a b t2
            (h a (List.mem_cons_self a (b :: t2)) b (by simp))

/-- A four-group input whose 4 chains all carry the same group-0
inversion: each group holds the same 4 mutually non-chaining voicings, so
exactly the 4 diagonal chains exist, all with inversion root. -/
def cexChainVoicing (i : Nat) : Voicing :=
  { strings := [], frets := [i, i, i], notes := [i, i, i],
     inversion := .root, fret_sum := 3 * i }

/-- The tagging counterexample input for the coordinated selector. -/
def cexGroups : List (List Voicing) :=
  [[cexChainVoicing 0, cexChainVoicing 1, cexChainVoicing 2, cexChainVoicing 3],
   [cexChainVoicing 0, cexChainVoicing 1, cexChainVoicing 2, cexChainVoicing 3],
   [cexChainVoicing 0, cexChainVoicing 1, cexChainVoicing 2, cexChainVoicing 3],
   [cexChainVoicing 0, cexChainVoicing 1, cexChainVoicing 2, cexChainVoicing 3]]

/-- A voicing with the given fret level and inversion label, for the
stale-sort counterexample. -/
def cexStaleVoicing (i : Nat) (inv : Inversion) : Voicing :=
  { strings := [], frets := [i, i, i], notes := [i, i, i],
     inversion := inv, fret_sum := 3 * i }

/-- One group of the stale-sort counterexample: chains are discovered in
the order root(mean 10), first(5), second(7), root(1) — descending does
not matter, only that the lowest-mean chain comes last. -/
def cexStaleGroup : List Voicing :=
  [cexStaleVoicing 10 .root, cexStaleVoicing 5 .first,
   cexStaleVoicing 7 .second, cexStaleVoicing 1 .root]

/-- The stale-sort counterexample input: 4 diagonal chains with scaled
means [120, 60, 84, 12]. -/
def cexGroups2 : List (List Voicing) :=
  [cexStaleGroup, cexStaleGroup, cexStaleGroup, cexStaleGroup]

/-- Counterexample to claim C2 as stated, in two parts.  First, on
`cexGroups` (4 chains, all of one inversion) no entry of the result is
tagged position 3 at all, although a highest matching-inversion chain
exists.  Second — the stale-key sort at main.py line 536 — on
`cexGroups2` the chains have scaled means [120, 60, 84, 12], yet position
0 receives the chain of mean 120 (the first-discovered, voicing fret_sum
30) and position 3 the matching chain of mean 12 (the last-discovered,
fret_sum 3): position 0 is not the globally lowest-mean chain and
position 3 is not the highest-mean matching chain. -/
theorem C2_counterexample :
    (4 ≤ (find_voicing_chains cexGroups).length ∧
     ∀ g ∈ select_4_positions_coordinated cexGroups [0, 4, 7],
       ∀ pv ∈ g, pv.1 ≠ 3) ∧
    (4 ≤ (find_voicing_chains cexGroups2).length ∧
     (find_voicing_chains cexGroups2).map chain_fret_sum = [120, 60, 84, 12] ∧
     (select_4_positions_coordinated cexGroups2 [0, 4, 7]).map
       (fun g => g.map (fun p => (p.1, p.2.fret_sum))) =
       [[(0, 30), (1, 15), (2, 21), (3, 3)], [(0, 30), (1, 15), (2, 21), (3, 3)],
        [(0, 30), (1, 15), (2, 21), (3, 3)], [(0, 30), (1, 15), (2, 21), (3, 3)]]) := by
  decide

/-- Claim C2 (amended): when `find_voicing_chains` yields at least 4
chains, the coordinated selector selects as its first chain (tagged
position 0) the FIRST chain in discovery order — because the global sort
at main.py line 536 keys every pair with the stale `avg_fret` of the last
chain, it is a no-op, so `chains[0]` is chosen rather than the
lowest-mean chain — and as its last selected chain the LAST chain in
discovery order whose group-0 voicing has the same inversion as chain 0;
that last chain is tagged position 3 exactly when each of the two
non-paired inversions contributes at least one chain (otherwise it
receives a smaller tag, as the tagging counterexample shows).  With fewer
than 4 chains the selector returns the independent `select_4_positions`
of each group, and the same fallback would run if no matching-inversion
chain were found (which cannot happen: chain 0 matches itself). -/
theorem C2_coordinated_pairing (gs : List (List Voicing)) (tri : List Nat) :
    (((find_voicing_chains gs).length < 4) →
      select_4_positions_coordinated gs tri = gs.map select_4_positions)
    ∧ (((insertionSort pairLe ((find_voicing_chains gs).map (fun chain => ((chain_fret_sum ((find_voicing_chains gs).getLastD default)), chain)))).filter (fun c => c.2.c0.inversion = ((insertionSort pairLe ((find_voicing_chains gs).map (fun chain => ((chain_fret_sum ((find_voicing_chains gs).getLastD default)), chain)))).headD default).2.c0.inversion)).getLast? = none →
      select_4_positions_coordinated gs tri = gs.map select_4_positions)
    ∧ (4 ≤ (find_voicing_chains gs).length →
      ∃ pos0 pos3 : Chain,
        pos0 = (find_voicing_chains gs).headD default ∧
        pos0 ∈ (find_voicing_chains gs) ∧
        pos3 ∈ (find_voicing_chains gs) ∧
        pos3.c0.inversion = pos0.c0.inversion ∧
        ((find_voicing_chains gs).filter (fun c => c.c0.inversion = pos0.c0.inversion)).getLast? =
          some pos3 ∧
        ((chainBucket (find_voicing_chains gs)
            ((inversion_types.filter (· ≠ pos0.c0.inversion)).getD 0 .root) ≠ [] ∧
          chainBucket (find_voicing_chains gs)
            ((inversion_types.filter (· ≠ pos0.c0.inversion)).getD 1 .root) ≠ []) →
          ∃ c1 c2 : Chain,
            select_4_positions_coordinated gs tri =
              (List.range 4).map (fun g =>
                [(0, pos0.get g), (1, c1.get g), (2, c2.get g),
                 (3, pos3.get g)]))) := by
  refine ⟨?_, ?_, ?_⟩
  · intro h
    unfold select_4_positions_coordinated
    rw [if_pos h]
  · intro hnone
    by_cases hlt : (find_voicing_chains gs).length < 4
    · unfold select_4_positions_coordinated
      rw [if_pos hlt]
    · unfold select_4_positions_coordinated
      rw [if_neg hlt]
      dsimp only
      rw [hnone]
  · intro h4
    have hlt : ¬ (find_voicing_chains gs).length < 4 := by omega
    have hchne : (find_voicing_chains gs) ≠ [] := by
      intro hnil
      rw [hnil] at h4
      simp at h4
    have hall : ∀ a ∈ ((find_voicing_chains gs).map (fun chain => ((chain_fret_sum ((find_voicing_chains gs).getLastD default)), chain))), ∀ b ∈ ((find_voicing_chains gs).map (fun chain => ((chain_fret_sum ((find_voicing_chains gs).getLastD default)), chain))), pairLe a b = true := by
      intro a ha b hb
      obtain ⟨ca, _, rfl⟩ := List.mem_map.mp ha
      obtain ⟨cb, _, rfl⟩ := List.mem_map.mp hb
      simp [pairLe]
    have hid : (insertionSort pairLe ((find_voicing_chains gs).map (fun chain => ((chain_fret_sum ((find_voicing_chains gs).getLastD default)), chain)))) = ((find_voicing_chains gs).map (fun chain => ((chain_fret_sum ((find_voicing_chains gs).getLastD default)), chain))) := insertionSort_of_all_le pairLe ((find_voicing_chains gs).map (fun chain => ((chain_fret_sum ((find_voicing_chains gs).getLastD default)), chain))) hall
    have hhead : ((find_voicing_chains gs).map (fun chain => ((chain_fret_sum ((find_voicing_chains gs).getLastD default)), chain))).headD default = ((chain_fret_sum ((find_voicing_chains gs).getLastD default)), (find_voicing_chains gs).headD default) := by
      cases hc : (find_voicing_chains gs) with
      | nil => exact absurd hc hchne
      | cons a t => rfl
    cases hlast : ((insertionSort pairLe ((find_voicing_chains gs).map (fun chain => ((chain_fret_sum ((find_voicing_chains gs).getLastD default)), chain)))).filter (fun c => c.2.c0.inversion = ((insertionSort pairLe ((find_voicing_chains gs).map (fun chain => ((chain_fret_sum ((find_voicing_chains gs).getLastD default)), chain)))).headD default).2.c0.inversion)).getLast? with
    | none =>
        exfalso
        rw [hid, List.getLast?_eq_none_iff] at hlast
        have hm : ((chain_fret_sum ((find_voicing_chains gs).getLastD default)), (find_voicing_chains gs).headD default) ∈ ((find_voicing_chains gs).map (fun chain => ((chain_fret_sum ((find_voicing_chains gs).getLastD default)), chain))) :=
          List.mem_map.mpr ⟨(find_voicing_chains gs).headD default, headD_mem hchne, rfl⟩
        have hmf : ((chain_fret_sum ((find_voicing_chains gs).getLastD default)), (find_voicing_chains gs).headD default) ∈
            ((find_voicing_chains gs).map (fun chain => ((chain_fret_sum ((find_voicing_chains gs).getLastD default)), chain))).filter (fun c =>
              c.2.c0.inversion = (((find_voicing_chains gs).map (fun chain => ((chain_fret_sum ((find_voicing_chains gs).getLastD default)), chain))).headD default).2.c0.inversion) := by
          refine List.mem_filter.mpr ⟨hm, ?_⟩
          rw [hhead]
          simp
        rw [hlast] at hmf
        simp at hmf
    | some pos3_pair =>
        have hlast2 := hlast
        rw [hid] at hlast2
        have hpred : (fun (c : Nat × Chain) =>
            decide (c.2.c0.inversion = (((find_voicing_chains gs).map (fun chain => ((chain_fret_sum ((find_voicing_chains gs).getLastD default)), chain))).headD default).2.c0.inversion)) =
            (fun (c : Nat × Chain) =>
              decide (c.2.c0.inversion = ((find_voicing_chains gs).headD default).c0.inversion)) := by
          funext c
          rw [hhead]
        rw [hpred, List.filter_map, List.getLast?_map, Option.map_eq_some'] at hlast2
        obtain ⟨pos3, hpos3last, hpos3pair⟩ := hlast2
        have hcomp : ((fun (c : Nat × Chain) =>
            decide (c.2.c0.inversion = ((find_voicing_chains gs).headD default).c0.inversion)) ∘
            (fun chain => ((chain_fret_sum ((find_voicing_chains gs).getLastD default)), chain))) =
            (fun (c : Chain) =>
              decide (c.c0.inversion = ((find_voicing_chains gs).headD default).c0.inversion)) := by
          funext c
          rfl
        rw [hcomp] at hpos3last
        have hpos3f := List.mem_of_getLast?_eq_some hpos3last
        obtain ⟨hpos3mem, hpos3pred⟩ := List.mem_filter.mp hpos3f
        have hpos3inv : pos3.c0.inversion = ((find_voicing_chains gs).headD default).c0.inversion := by
          simpa using hpos3pred
        refine ⟨(find_voicing_chains gs).headD default, pos3, rfl, headD_mem hchne, hpos3mem,
          hpos3inv, hpos3last, ?_⟩
        rintro ⟨hcb1, hcb2⟩
        refine ⟨(chainBucket (find_voicing_chains gs)
            ((inversion_types.filter (· ≠ ((find_voicing_chains gs).headD default).c0.inversion)).getD 0 .root)).getD
            (min ((chainBucket (find_voicing_chains gs)
              ((inversion_types.filter (· ≠ ((find_voicing_chains gs).headD default).c0.inversion)).getD 0 .root)).length - 1)
              ((chainBucket (find_voicing_chains gs)
              ((inversion_types.filter (· ≠ ((find_voicing_chains gs).headD default).c0.inversion)).getD 0 .root)).length / 3))
            default,
          (chainBucket (find_voicing_chains gs)
            ((inversion_types.filter (· ≠ ((find_voicing_chains gs).headD default).c0.inversion)).getD 1 .root)).getD
            (max 0 ((chainBucket (find_voicing_chains gs)
              ((inversion_types.filter (· ≠ ((find_voicing_chains gs).headD default).c0.inversion)).getD 1 .root)).length * 2 / 3))
            default, ?_⟩
        unfold select_4_positions_coordinated
        rw [if_neg hlt]
        dsimp only
        rw [hlast]
        dsimp only
        rw [hid, ← hpos3pair]
        simp only [hhead]
        have hcond : (decide (1 < (inversion_types.filter
            (· ≠ ((find_voicing_chains gs).headD default).c0.inversion)).length) &&
            !(chainBucket (find_voicing_chains gs)
              ((inversion_types.filter (· ≠ ((find_voicing_chains gs).headD default).c0.inversion)).getD 1 .root)).isEmpty) = true := by
          rw [isEmpty_eq_false_of_ne_nil hcb2, Bool.not_false, Bool.and_true,
            decide_eq_true_eq]
          exact other_invs_length _
        simp only [isEmpty_eq_false_of_ne_nil hcb1, Bool.false_eq_true, if_false,
          hcond, if_true, List.cons_append, List.nil_append,
          List.enum, List.enumFrom, List.map_cons, List.map_nil]

/-- Witness for C2 (amended) at key C: 5 chains, both non-paired chain
buckets nonempty. -/
theorem C2_coordinated_pairing_witness :
    (4 ≤ (find_voicing_chains (groupVoicings "C")).length) ∧
    (∃ pos0 pos3 : Chain,
      pos0 = (find_voicing_chains (groupVoicings "C")).headD default ∧
      pos0 ∈ (find_voicing_chains (groupVoicings "C")) ∧
      pos3 ∈ (find_voicing_chains (groupVoicings "C")) ∧
      pos3.c0.inversion = pos0.c0.inversion ∧
      ((find_voicing_chains (groupVoicings "C")).filter (fun c => c.c0.inversion = pos0.c0.inversion)).getLast? =
        some pos3 ∧
      ((chainBucket (find_voicing_chains (groupVoicings "C"))
          ((inversion_types.filter (· ≠ pos0.c0.inversion)).getD 0 .root) ≠ [] ∧
        chainBucket (find_voicing_chains (groupVoicings "C"))
          ((inversion_types.filter (· ≠ pos0.c0.inversion)).getD 1 .root) ≠ []) →
        ∃ c1 c2 : Chain,
          select_4_positions_coordinated (groupVoicings "C") (build_major_triad "C") =
            (List.range 4).map (fun g =>
              [(0, pos0.get g), (1, c1.get g), (2, c2.get g),
               (3, pos3.get g)]))) :=
  ⟨by decide,
   (C2_coordinated_pairing (groupVoicings "C") (build_major_triad "C")).2.2 (by decide)⟩

end Guitar
